import Mathlib

/-!
Shallow embedding of the auto-trader in `src/autotrader7.py` (module-level
constants, `assess_market_balance`, and the four message handlers of class
`AutoTrader`), together with theorems settling the specification claims.

Python integers are modelled as `ℤ`, order identifiers as `ℕ` (they are drawn
from `itertools.count(1)`), and Python `set`s as `Finset ℕ`.
A handler that would raise an exception (an out-of-range list index) is
modelled as returning `none`; in the source every such index access happens
before any state mutation, so `none` leaves the state unchanged.

Python `float` arithmetic occurs only inside `assess_market_balance`, whose
weights are the literals `0.7`, `0.2`, `0.1`.  Two arithmetic models of that
function are developed:

* `assess_market_balance` evaluates the weighted sum in exact rational
  arithmetic over `ℚ`.  This idealisation is used by the control-loop claims,
  whose statements hold for every integer value of the score; on each of the
  concrete order books appearing in those claims' proofs the idealised score
  coincides with the IEEE value (`float_scores_agree_on_quoted_books`).
* `assess_market_balance_float` evaluates it in IEEE-754 binary64 arithmetic,
  modelled exactly by dyadic rationals `m * 2 ^ e` with round-to-nearest,
  ties-to-even at 53 significant bits (`Dyadic`, `normalize53`).  In the
  exactly-representable volume range the two models can differ — binary64
  computes `11000 * 0.7 = 7699.9999999999991`, so the truncated score at ask
  volumes `[11000, 0, 0]` is `76` where exact arithmetic gives `77` — which
  settles the numerical claims about the score formula.
-/

/-- `VOLUME_LIMIT = 200` from autotrader7.py. -/
def VOLUME_LIMIT : ℤ := 200

/-- `LOT_SIZE = 10` from autotrader7.py. -/
def LOT_SIZE : ℤ := 10

/-- `POSITION_SOFT_LIMIT = 600` from autotrader7.py. -/
def POSITION_SOFT_LIMIT : ℤ := 600

/-- `POSITION_LIMIT = 1000` from autotrader7.py. -/
def POSITION_LIMIT : ℤ := 1000

/-- `MARKET_BALANCE_LIMIT = 2` from autotrader7.py. -/
def MARKET_BALANCE_LIMIT : ℤ := 2

/-- The `Instrument.FUTURE` enumerator of the `ready_trader_one` package.
The package's `types` module is not part of the sources; only the numeric
value (0, per the hud encoding) matters, and no claim depends on it. -/
def Instrument.FUTURE : ℤ := 0

/-- Python `int(...)` applied to a rational: truncation toward zero. -/
def ratTrunc (q : ℚ) : ℤ := if q < 0 then -⌊-q⌋ else ⌊q⌋

/-- The loop body of `assess_market_balance`:
`for i in range(search_width): balance += asks[i][1]*weights[i]; balance -= bids[i][1]*weights[i]`,
with the float accumulation idealised as exact rational arithmetic
(`balance_loop_float` below keeps the binary64 rounding).  Indexing `asks[i]`
or `bids[i]` past the end of the (zip-truncated) list raises `IndexError`,
modelled as `none`. -/
def balance_loop : List (ℤ × ℤ) → List (ℤ × ℤ) → List ℚ → ℚ → Option ℚ
  | _, _, [], acc => some acc
  | a :: asks, b :: bids, w :: ws, acc => balance_loop asks bids ws (acc + a.2 * w - b.2 * w)
  | _, _, _ :: _, _ => none

/-- `AutoTrader.assess_market_balance` (autotrader7.py lines 34-55), with the
float weights `[0.7, 0.2, 0.1]` idealised as exact rationals; the faithful
binary64 version is `assess_market_balance_float` below. -/
def assess_market_balance (ask_prices ask_volumes bid_prices bid_volumes : List ℤ) : Option ℤ :=
  let weights : List ℚ := [7/10, 2/10, 1/10]
  let search_width := weights.length
  let asks := (ask_prices.take search_width).zip (ask_volumes.take search_width)
  let bids := (bid_prices.take search_width).zip (bid_volumes.take search_width)
  match balance_loop asks bids weights 0 with
  | some balance => some (ratTrunc (balance / 10 ^ 2))
  | none => none

/-- `ready_trader_one.Side` (only the two enumerators used by the trader). -/
inductive Side where
  | BUY : Side
  | SELL : Side
deriving DecidableEq, Repr

/-- `ready_trader_one.Lifespan` (only the enumerator used by the trader). -/
inductive Lifespan where
  | GOOD_FOR_DAY : Lifespan
deriving DecidableEq, Repr

/-- An instruction sent to the exchange: `send_insert_order(id, side, price,
volume, lifespan)` or `send_cancel_order(id)`. -/
inductive Instruction where
  | insert (order_id : ℕ) (side : Side) (price : ℤ) (volume : ℤ) (lifespan : Lifespan)
  | cancel (order_id : ℕ)
deriving DecidableEq, Repr

/-- The mutable state of `AutoTrader` (autotrader7.py `__init__`):
`order_ids` holds the next value of the `itertools.count(1)` counter. -/
structure TraderState where
  order_ids : ℕ
  bids : Finset ℕ
  asks : Finset ℕ
  ask_id : ℕ
  ask_price : ℤ
  bid_id : ℕ
  bid_price : ℤ
  position : ℤ
deriving DecidableEq

/-- The state built by `AutoTrader.__init__`. -/
def initialState : TraderState :=
  { order_ids := 1, bids := ∅, asks := ∅,
    ask_id := 0, ask_price := 0, bid_id := 0, bid_price := 0, position := 0 }

/-- Lines 78-79: `prices[0] if prices[0] != 0 else 0`. -/
def desired_price (p0 : ℤ) : ℤ := if p0 ≠ 0 then p0 else 0

/-- Lines 81-82: the pre-scaling bid volume. -/
def base_bid_volume (position : ℤ) : ℤ :=
  if position > 0 then LOT_SIZE
  else min (max LOT_SIZE |position|) (VOLUME_LIMIT - LOT_SIZE)

/-- Lines 83-84: the pre-scaling ask volume. -/
def base_ask_volume (position : ℤ) : ℤ :=
  if position < 0 then LOT_SIZE
  else min (max LOT_SIZE |position|) (VOLUME_LIMIT - LOT_SIZE)

/-- Lines 88-99: imbalance scaling of the two volumes, skipped when the
(signed) position exceeds the soft limit. -/
def scale_volumes (position balance new_bid_volume new_ask_volume : ℤ) : ℤ × ℤ :=
  if position ≤ POSITION_SOFT_LIMIT then
    if balance > 0 then
      let b := if balance > MARKET_BALANCE_LIMIT then MARKET_BALANCE_LIMIT else balance
      (new_bid_volume * b, new_ask_volume)
    else if balance < 0 then
      let b := if balance < -MARKET_BALANCE_LIMIT then -MARKET_BALANCE_LIMIT else balance
      (new_bid_volume, new_ask_volume * (-b))
    else (new_bid_volume, new_ask_volume)
  else (new_bid_volume, new_ask_volume)

/-- Lines 102-119: cancel pass followed by insert pass, returning the updated
state and the instructions sent (in send order). -/
def reconcile (s : TraderState)
    (new_bid_price new_ask_price new_bid_volume new_ask_volume : ℤ) :
    TraderState × List Instruction :=
  let s1 := if s.bid_id ≠ 0 ∧ new_bid_price ≠ s.bid_price ∧ new_bid_price ≠ 0 then
      { s with bid_id := 0 } else s
  let cs1 : List Instruction :=
    if s.bid_id ≠ 0 ∧ new_bid_price ≠ s.bid_price ∧ new_bid_price ≠ 0 then
      [Instruction.cancel s.bid_id] else []
  let s2 := if s1.ask_id ≠ 0 ∧ new_ask_price ≠ s1.ask_price ∧ new_ask_price ≠ 0 then
      { s1 with ask_id := 0 } else s1
  let cs2 : List Instruction :=
    if s1.ask_id ≠ 0 ∧ new_ask_price ≠ s1.ask_price ∧ new_ask_price ≠ 0 then
      [Instruction.cancel s1.ask_id] else []
  let s3 := if s2.bid_id = 0 ∧ new_bid_price ≠ 0 ∧ s2.position + new_bid_volume < POSITION_LIMIT then
      { s2 with bid_id := s2.order_ids, bid_price := new_bid_price,
                order_ids := s2.order_ids + 1, bids := insert s2.order_ids s2.bids } else s2
  let is3 : List Instruction :=
    if s2.bid_id = 0 ∧ new_bid_price ≠ 0 ∧ s2.position + new_bid_volume < POSITION_LIMIT then
      [Instruction.insert s2.order_ids Side.BUY new_bid_price new_bid_volume Lifespan.GOOD_FOR_DAY]
    else []
  let s4 := if s3.ask_id = 0 ∧ new_ask_price ≠ 0 ∧ s3.position - new_ask_volume > -POSITION_LIMIT then
      { s3 with ask_id := s3.order_ids, ask_price := new_ask_price,
                order_ids := s3.order_ids + 1, asks := insert s3.order_ids s3.asks } else s3
  let is4 : List Instruction :=
    if s3.ask_id = 0 ∧ new_ask_price ≠ 0 ∧ s3.position - new_ask_volume > -POSITION_LIMIT then
      [Instruction.insert s3.order_ids Side.SELL new_ask_price new_ask_volume Lifespan.GOOD_FOR_DAY]
    else []
  (s4, cs1 ++ cs2 ++ is3 ++ is4)

/-- `AutoTrader.on_order_book_update_message` (lines 68-119). Returns the new
state and the instructions sent; `none` models an uncaught `IndexError`
(which in the source can only be raised before any mutation or send). -/
def on_order_book_update_message (s : TraderState) (instrument sequence_number : ℤ)
    (ask_prices ask_volumes bid_prices bid_volumes : List ℤ) :
    Option (TraderState × List Instruction) :=
  if instrument = Instrument.FUTURE then
    match bid_prices[0]?, ask_prices[0]?,
        assess_market_balance ask_prices ask_volumes bid_prices bid_volumes with
    | some bp0, some ap0, some balance =>
      let new_bid_price := desired_price bp0
      let new_ask_price := desired_price ap0
      let vols := scale_volumes s.position balance
        (base_bid_volume s.position) (base_ask_volume s.position)
      some (reconcile s new_bid_price new_ask_price vols.1 vols.2)
    | _, _, _ => none
  else some (s, [])

/-- `AutoTrader.on_order_filled_message` (lines 121-131). -/
def on_order_filled_message (s : TraderState) (client_order_id : ℕ) (price volume : ℤ) :
    TraderState :=
  if client_order_id ∈ s.bids then { s with position := s.position + volume }
  else if client_order_id ∈ s.asks then { s with position := s.position - volume }
  else s

/-- `AutoTrader.on_order_status_message` (lines 133-152). -/
def on_order_status_message (s : TraderState) (client_order_id : ℕ)
    (fill_volume remaining_volume fees : ℤ) : TraderState :=
  if remaining_volume = 0 then
    let s1 := if client_order_id = s.bid_id then { s with bid_id := 0 }
      else if client_order_id = s.ask_id then { s with ask_id := 0 }
      else s
    { s1 with bids := s1.bids.erase client_order_id, asks := s1.asks.erase client_order_id }
  else s

/-- `AutoTrader.on_error_message` (lines 58-66), without the logging. -/
def on_error_message (s : TraderState) (client_order_id : ℕ) : TraderState :=
  if client_order_id ≠ 0 then on_order_status_message s client_order_id 0 0 0 else s

/-- A notification delivered to the trader. -/
inductive Event where
  | book_update (instrument sequence_number : ℤ)
      (ask_prices ask_volumes bid_prices bid_volumes : List ℤ)
  | order_filled (client_order_id : ℕ) (price volume : ℤ)
  | order_status (client_order_id : ℕ) (fill_volume remaining_volume fees : ℤ)
  | error_message (client_order_id : ℕ)

/-- One handler invocation (a raising book update leaves the state intact). -/
def step (s : TraderState) : Event → TraderState
  | .book_update i sq ap av bp bv =>
    match on_order_book_update_message s i sq ap av bp bv with
    | some (s', _) => s'
    | none => s
  | .order_filled id p v => on_order_filled_message s id p v
  | .order_status id fv rv fees => on_order_status_message s id fv rv fees
  | .error_message id => on_error_message s id

/-- Running the trader over a list of notifications from a given state. -/
def run (s : TraderState) (es : List Event) : TraderState := es.foldl step s

/-- Volumes of the insert instructions in a list, in order. -/
def insertVolumes : List Instruction → List ℤ
  | [] => []
  | .insert _ _ _ v _ :: rest => v :: insertVolumes rest
  | .cancel _ :: rest => insertVolumes rest

/-- The single-order-per-side ledger shape: all tracked identifiers are below
the counter, the two live identifiers coincide only when cleared, and the bid
and ask ledgers are disjoint.  Proved below to hold at every reachable
state. -/
def LedgerInv (s : TraderState) : Prop :=
  0 < s.order_ids ∧
  (∀ id ∈ s.bids, id < s.order_ids) ∧
  (∀ id ∈ s.asks, id < s.order_ids) ∧
  s.bid_id < s.order_ids ∧
  s.ask_id < s.order_ids ∧
  (s.bid_id = s.ask_id → s.bid_id = 0) ∧
  Disjoint s.bids s.asks

/-!
Executable integer refinement.  `Rat.add`/`Rat.mul` are `@[irreducible]`, so
terms built from `assess_market_balance` do not reduce under `decide`; the
following `..._int` functions compute the same results purely over `ℤ`
(weights scaled by ten, final truncated division by `10 * 10 ^ 2 = 1000`) and
are proved equal to the rational versions below.  Concrete evaluations go
through this refinement.
-/

/-- Integer version of `balance_loop`: weights are numerators over ten. -/
def balance_loop_int : List (ℤ × ℤ) → List (ℤ × ℤ) → List ℤ → ℤ → Option ℤ
  | _, _, [], acc => some acc
  | a :: asks, b :: bids, w :: ws, acc => balance_loop_int asks bids ws (acc + a.2 * w - b.2 * w)
  | _, _, _ :: _, _ => none

/-- Integer version of `assess_market_balance`. -/
def assess_market_balance_int (ask_prices ask_volumes bid_prices bid_volumes : List ℤ) :
    Option ℤ :=
  let weights10 : List ℤ := [7, 2, 1]
  let search_width := weights10.length
  let asks := (ask_prices.take search_width).zip (ask_volumes.take search_width)
  let bids := (bid_prices.take search_width).zip (bid_volumes.take search_width)
  match balance_loop_int asks bids weights10 0 with
  | some balance10 => some (balance10.tdiv 1000)
  | none => none

/-- `on_order_book_update_message` with the imbalance signal computed by the
integer refinement. -/
def on_order_book_update_message_int (s : TraderState) (instrument sequence_number : ℤ)
    (ask_prices ask_volumes bid_prices bid_volumes : List ℤ) :
    Option (TraderState × List Instruction) :=
  if instrument = Instrument.FUTURE then
    match bid_prices[0]?, ask_prices[0]?,
        assess_market_balance_int ask_prices ask_volumes bid_prices bid_volumes with
    | some bp0, some ap0, some balance =>
      let new_bid_price := desired_price bp0
      let new_ask_price := desired_price ap0
      let vols := scale_volumes s.position balance
        (base_bid_volume s.position) (base_ask_volume s.position)
      some (reconcile s new_bid_price new_ask_price vols.1 vols.2)
    | _, _, _ => none
  else some (s, [])

/-- `step` with the integer refinement of the book-update handler. -/
def step_int (s : TraderState) : Event → TraderState
  | .book_update i sq ap av bp bv =>
    match on_order_book_update_message_int s i sq ap av bp bv with
    | some (s', _) => s'
    | none => s
  | .order_filled id p v => on_order_filled_message s id p v
  | .order_status id fv rv fees => on_order_status_message s id fv rv fees
  | .error_message id => on_error_message s id

/-- `run` with the integer refinement of the book-update handler. -/
def run_int (s : TraderState) (es : List Event) : TraderState := es.foldl step_int s

/-- A balanced book update: equal top-level volumes on the two sides, so the
imbalance score is zero. -/
def quiet_book_event : Event :=
  .book_update Instrument.FUTURE 0 [200, 0, 0, 0, 0] [10, 0, 0, 0, 0]
    [100, 0, 0, 0, 0] [10, 0, 0, 0, 0]

/-- Round `k` of the scenario reaching a short position: a balanced book tick
(whose ask insert gets identifier `k + 2`), a full fill of that ask, and the
zero-remaining-volume status closing it. -/
def sell_round (k : ℕ) : List Event :=
  [quiet_book_event, .order_filled (k + 2) 200 10, .order_status (k + 2) 10 0 0]

/-- Fifteen sell rounds: from the initial state they drive the position to
`-150` while leaving the ask side of the ledger free. -/
def sell_trace : List Event := (List.range 15).flatMap sell_round


/-!
Exact model of IEEE-754 binary64 arithmetic on dyadic rationals.  A finite
double is a value `m * 2 ^ e` with `|m| < 2 ^ 53`; every operation computes
the exact result and rounds it to 53 significant bits, to nearest, ties to
even — precisely the IEEE semantics in the normal range (the trader's
volumes are nowhere near the overflow or subnormal thresholds).  Additions
and multiplications by an exact zero short-circuit; IEEE produces the same
values there, since rounding an already-representable value is the identity.
All operations are plain integer arithmetic, so concrete instances evaluate
under `decide`.
-/

/-- Bit length of a natural number, written with explicit fuel so that it
reduces structurally; `dyBits` supplies fuel far beyond any mantissa width
reachable from binary64 operands. -/
def natBits : ℕ → ℕ → ℕ
  | 0, _ => 0
  | fuel + 1, n => if n = 0 then 0 else natBits fuel (n / 2) + 1

/-- Bit length with enough fuel for any intermediate mantissa in this file. -/
def dyBits (n : ℕ) : ℕ := natBits 4200 n

/-- A dyadic rational `m * 2 ^ e`; the representation is not required to be
normalised, and every operation rounds by value. -/
structure Dyadic where
  m : ℤ
  e : ℤ
deriving DecidableEq, Repr

/-- Round `m * 2 ^ e` to 53 significant bits, to nearest, ties to even (the
binary64 rounding of an exact intermediate result). -/
def normalize53 (m e : ℤ) : Dyadic :=
  let n := m.natAbs
  let b := dyBits n
  if b ≤ 53 then ⟨m, e⟩
  else
    let s := b - 53
    let q := n / 2 ^ s
    let r := n % 2 ^ s
    let half := 2 ^ (s - 1)
    let q' := if r < half then q
      else if half < r then q + 1
      else if q % 2 = 0 then q else q + 1
    ⟨if m < 0 then -(q' : ℤ) else (q' : ℤ), e + s⟩

/-- Conversion of a Python `int` to binary64 (rounds above `2 ^ 53`). -/
def toDouble (v : ℤ) : Dyadic := normalize53 v 0

/-- Binary64 multiplication: exact product, then rounding. -/
def fmul (x y : Dyadic) : Dyadic :=
  if x.m = 0 ∨ y.m = 0 then ⟨0, 0⟩
  else normalize53 (x.m * y.m) (x.e + y.e)

/-- Binary64 addition: exact aligned sum, then rounding.  Adding an exact
zero returns the other operand unchanged, as IEEE does on values. -/
def fadd (x y : Dyadic) : Dyadic :=
  if x.m = 0 then y
  else if y.m = 0 then x
  else
    let e := min x.e y.e
    normalize53 (x.m * 2 ^ (x.e - e).toNat + y.m * 2 ^ (y.e - e).toNat) e

/-- Binary64 negation (exact). -/
def fneg (x : Dyadic) : Dyadic := ⟨-x.m, x.e⟩

/-- Binary64 subtraction. -/
def fsub (x y : Dyadic) : Dyadic := fadd x (fneg y)

/-- Correctly rounded binary64 division of a double by a positive integer:
sixty-four guard bits make the quotient's bit length exceed 53, and the
division remainder acts as the sticky bit for the tie decision. -/
def fdivByNat (x : Dyadic) (d : ℕ) : Dyadic :=
  if x.m = 0 then ⟨0, 0⟩
  else
    let k : ℕ := 64
    let a := x.m.natAbs * 2 ^ k
    let q0 := a / d
    let rem := a % d
    let b := dyBits q0
    let s := b - 53
    let q := q0 / 2 ^ s
    let r := q0 % 2 ^ s
    let half := 2 ^ (s - 1)
    let q' := if r < half then q
      else if half < r then q + 1
      else if rem = 0 then (if q % 2 = 0 then q else q + 1) else q + 1
    ⟨if x.m < 0 then -(q' : ℤ) else (q' : ℤ), x.e - (k : ℤ) + (s : ℤ)⟩

/-- The binary64 value of a decimal literal `n / d` (e.g. `0.7` is
`ratToDouble 7 10`); this model computes the standard constants, e.g.
`0.7 = 6305039478318694 * 2 ^ (-53)`. -/
def ratToDouble (n : ℤ) (d : ℕ) : Dyadic := fdivByNat ⟨n, 0⟩ d

/-- The exact rational value of a dyadic. -/
def Dyadic.toRat (x : Dyadic) : ℚ :=
  if 0 ≤ x.e then ((x.m * 2 ^ x.e.toNat : ℤ) : ℚ)
  else (x.m : ℚ) / ((2 ^ (-x.e).toNat : ℕ) : ℚ)

/-- Python `int(...)` applied to a double: truncation toward zero of its
exact value. -/
def Dyadic.trunc (x : Dyadic) : ℤ :=
  if 0 ≤ x.e then x.m * 2 ^ x.e.toNat else x.m.tdiv (2 ^ (-x.e).toNat)

/-- The loop of `assess_market_balance` in binary64 arithmetic: each volume
is converted to a double and every products-and-sum step rounds as IEEE
does. -/
def balance_loop_float : List (ℤ × ℤ) → List (ℤ × ℤ) → List Dyadic → Dyadic → Option Dyadic
  | _, _, [], acc => some acc
  | a :: asks, b :: bids, w :: ws, acc =>
    balance_loop_float asks bids ws
      (fsub (fadd acc (fmul (toDouble a.2) w)) (fmul (toDouble b.2) w))
  | _, _, _ :: _, _ => none

/-- `AutoTrader.assess_market_balance` (autotrader7.py lines 34-55) with the
source's IEEE binary64 arithmetic: the weight literals `0.7`, `0.2`, `0.1`
are their binary64 values and every operation rounds. -/
def assess_market_balance_float (ask_prices ask_volumes bid_prices bid_volumes : List ℤ) :
    Option ℤ :=
  let weights : List Dyadic := [ratToDouble 7 10, ratToDouble 2 10, ratToDouble 1 10]
  let search_width := weights.length
  let asks := (ask_prices.take search_width).zip (ask_volumes.take search_width)
  let bids := (bid_prices.take search_width).zip (bid_volumes.take search_width)
  match balance_loop_float asks bids weights ⟨0, 0⟩ with
  | some balance => some (Dyadic.trunc (fdivByNat balance (10 ^ 2)))
  | none => none

/-! ## Refinement lemmas -/

/-- Truncation toward zero of `n / d` over `ℚ` is `Int.tdiv`. -/
theorem ratTrunc_intCast_div_natCast (n : ℤ) (d : ℕ) :
    ratTrunc ((n : ℚ) / (d : ℚ)) = n.tdiv d := by
  rcases Nat.eq_zero_or_pos d with hd | hd
  · subst hd
    simp [ratTrunc, Int.tdiv_zero]
  rcases le_or_lt 0 n with hn | hn
  · have hq : ¬ ((n : ℚ) / (d : ℚ) < 0) := by
      push_neg
      positivity
    rw [ratTrunc, if_neg hq, Rat.floor_intCast_div_natCast,
      Int.tdiv_eq_ediv hn (by exact_mod_cast hd.le)]
  · have hq : (n : ℚ) / (d : ℚ) < 0 := by
      apply div_neg_of_neg_of_pos
      · exact_mod_cast hn
      · exact_mod_cast hd
    have hneg : -((n : ℚ) / (d : ℚ)) = ((-n : ℤ) : ℚ) / (d : ℚ) := by
      push_cast
      ring
    have htd : n.tdiv d = -((-n).tdiv d) := by
      rw [Int.neg_tdiv, neg_neg]
    rw [ratTrunc, if_pos hq, hneg, Rat.floor_intCast_div_natCast, htd,
      Int.tdiv_eq_ediv (by omega) (by exact_mod_cast hd.le)]

/-- The rational loop over tenth-valued weights mirrors the integer loop. -/
theorem balance_loop_tenths (ws : List ℤ) :
    ∀ (asks bids : List (ℤ × ℤ)) (acc : ℤ),
      balance_loop asks bids (List.map (fun w : ℤ => (w : ℚ) / 10) ws) ((acc : ℚ) / 10) =
        Option.map (fun n : ℤ => (n : ℚ) / 10) (balance_loop_int asks bids ws acc) := by
  induction ws with
  | nil =>
    intro asks bids acc
    simp [balance_loop, balance_loop_int]
  | cons w ws ih =>
    intro asks bids acc
    match asks, bids with
    | [], [] => simp [balance_loop, balance_loop_int]
    | [], _ :: _ => simp [balance_loop, balance_loop_int]
    | _ :: _, [] => simp [balance_loop, balance_loop_int]
    | a :: asks, b :: bids =>
      show balance_loop asks bids (List.map (fun w : ℤ => (w : ℚ) / 10) ws)
          ((acc : ℚ) / 10 + (a.2 : ℚ) * ((w : ℚ) / 10) - (b.2 : ℚ) * ((w : ℚ) / 10)) = _
      have hacc : (acc : ℚ) / 10 + (a.2 : ℚ) * ((w : ℚ) / 10) - (b.2 : ℚ) * ((w : ℚ) / 10) =
          ((acc + a.2 * w - b.2 * w : ℤ) : ℚ) / 10 := by
        push_cast
        ring
      rw [hacc, ih]
      rfl

/-- `assess_market_balance` agrees with its integer refinement everywhere. -/
theorem assess_market_balance_eq_int (ap av bp bv : List ℤ) :
    assess_market_balance ap av bp bv = assess_market_balance_int ap av bp bv := by
  have hw : ([7/10, 2/10, 1/10] : List ℚ) = List.map (fun w : ℤ => (w : ℚ) / 10) [7, 2, 1] := by
    simp only [List.map_cons, List.map_nil]
    norm_num
  have h0 : (0 : ℚ) = ((0 : ℤ) : ℚ) / 10 := by norm_num
  simp only [assess_market_balance, assess_market_balance_int, List.length_cons, List.length_nil]
  rw [hw, h0, balance_loop_tenths]
  cases hbl : balance_loop_int ((ap.take 3).zip (av.take 3)) ((bp.take 3).zip (bv.take 3))
      ([7, 2, 1] : List ℤ) 0 with
  | none => simp [hbl]
  | some n =>
    simp only [hbl, Option.map_some']
    have hdiv : ((n : ℚ) / 10) / 10 ^ 2 = (n : ℚ) / ((1000 : ℕ) : ℚ) := by
      push_cast
      ring
    rw [hdiv, ratTrunc_intCast_div_natCast]
    norm_num

/-- The book-update handler agrees with its integer refinement everywhere. -/
theorem on_order_book_update_message_eq_int (s : TraderState) (instrument sequence_number : ℤ)
    (ap av bp bv : List ℤ) :
    on_order_book_update_message s instrument sequence_number ap av bp bv =
      on_order_book_update_message_int s instrument sequence_number ap av bp bv := by
  unfold on_order_book_update_message on_order_book_update_message_int
  rw [assess_market_balance_eq_int]

/-- `step` agrees with its integer refinement everywhere. -/
theorem step_eq_int (s : TraderState) (e : Event) : step s e = step_int s e := by
  cases e with
  | book_update i sq ap av bp bv =>
    show (match on_order_book_update_message s i sq ap av bp bv with
          | some (s', _) => s' | none => s) =
        (match on_order_book_update_message_int s i sq ap av bp bv with
          | some (s', _) => s' | none => s)
    rw [on_order_book_update_message_eq_int]
  | order_filled id p v => rfl
  | order_status id fv rv fees => rfl
  | error_message id => rfl

/-- `run` agrees with its integer refinement everywhere. -/
theorem run_eq_int (es : List Event) : ∀ s : TraderState, run s es = run_int s es := by
  induction es with
  | nil => intro s; rfl
  | cons e es ih =>
    intro s
    show run (step s e) es = run_int (step_int s e) es
    rw [step_eq_int, ih]

/-! ## Structure of the reconciliation pass -/

/-- Normal form of the instruction list produced by `reconcile`: the two
cancel conditions only read fields the earlier passes never write, so they can
be stated on the incoming state. -/
theorem reconcile_snd (s : TraderState) (nbp nap nbv nav : ℤ) :
    (reconcile s nbp nap nbv nav).2 =
      (if s.bid_id ≠ 0 ∧ nbp ≠ s.bid_price ∧ nbp ≠ 0 then [Instruction.cancel s.bid_id]
        else []) ++
      (if s.ask_id ≠ 0 ∧ nap ≠ s.ask_price ∧ nap ≠ 0 then [Instruction.cancel s.ask_id]
        else []) ++
      (if (if s.bid_id ≠ 0 ∧ nbp ≠ s.bid_price ∧ nbp ≠ 0 then 0 else s.bid_id) = 0 ∧ nbp ≠ 0 ∧
          s.position + nbv < POSITION_LIMIT then
        [Instruction.insert s.order_ids Side.BUY nbp nbv Lifespan.GOOD_FOR_DAY] else []) ++
      (if (if s.ask_id ≠ 0 ∧ nap ≠ s.ask_price ∧ nap ≠ 0 then 0 else s.ask_id) = 0 ∧ nap ≠ 0 ∧
          s.position - nav > -POSITION_LIMIT then
        [Instruction.insert
          (if (if s.bid_id ≠ 0 ∧ nbp ≠ s.bid_price ∧ nbp ≠ 0 then 0 else s.bid_id) = 0 ∧ nbp ≠ 0 ∧
              s.position + nbv < POSITION_LIMIT then s.order_ids + 1 else s.order_ids)
          Side.SELL nap nav Lifespan.GOOD_FOR_DAY] else []) := by
  by_cases hc1 : s.bid_id ≠ 0 ∧ nbp ≠ s.bid_price ∧ nbp ≠ 0 <;>
    by_cases hc2 : s.ask_id ≠ 0 ∧ nap ≠ s.ask_price ∧ nap ≠ 0 <;>
    simp [reconcile, hc1, hc2, apply_ite TraderState.ask_id, apply_ite TraderState.bid_id,
      apply_ite TraderState.position, apply_ite TraderState.order_ids]

theorem mem_insert_reconcile {s : TraderState} {nbp nap nbv nav : ℤ}
    {id : ℕ} {side : Side} {p v : ℤ} {ls : Lifespan}
    (h : Instruction.insert id side p v ls ∈ (reconcile s nbp nap nbv nav).2) :
    (side = Side.BUY ∧ p = nbp ∧ v = nbv ∧ s.position + nbv < POSITION_LIMIT ∧ nbp ≠ 0) ∨
    (side = Side.SELL ∧ p = nap ∧ v = nav ∧ s.position - nav > -POSITION_LIMIT ∧ nap ≠ 0) := by
  rw [reconcile_snd] at h
  simp only [List.mem_append] at h
  rcases h with ((h | h) | h) | h
  · rcases Decidable.em (s.bid_id ≠ 0 ∧ nbp ≠ s.bid_price ∧ nbp ≠ 0) with hc | hc
    · rw [if_pos hc] at h
      simp at h
    · rw [if_neg hc] at h
      simp at h
  · rcases Decidable.em (s.ask_id ≠ 0 ∧ nap ≠ s.ask_price ∧ nap ≠ 0) with hc | hc
    · rw [if_pos hc] at h
      simp at h
    · rw [if_neg hc] at h
      simp at h
  · rcases Decidable.em ((if s.bid_id ≠ 0 ∧ nbp ≠ s.bid_price ∧ nbp ≠ 0 then 0 else s.bid_id) = 0 ∧
        nbp ≠ 0 ∧ s.position + nbv < POSITION_LIMIT) with hc | hc
    · rw [if_pos hc] at h
      simp only [List.mem_singleton] at h
      injection h with h1 h2 h3 h4 h5
      exact Or.inl ⟨h2, h3, h4, hc.2.2, hc.2.1⟩
    · rw [if_neg hc] at h
      simp at h
  · rcases Decidable.em ((if s.ask_id ≠ 0 ∧ nap ≠ s.ask_price ∧ nap ≠ 0 then 0 else s.ask_id) = 0 ∧
        nap ≠ 0 ∧ s.position - nav > -POSITION_LIMIT) with hc | hc
    · rw [if_pos hc] at h
      simp only [List.mem_singleton] at h
      injection h with h1 h2 h3 h4 h5
      exact Or.inr ⟨h2, h3, h4, hc.2.2, hc.2.1⟩
    · rw [if_neg hc] at h
      simp at h

theorem mem_cancel_reconcile (s : TraderState) (nbp nap nbv nav : ℤ)
    (hids : s.bid_id = s.ask_id → s.bid_id = 0) :
    (Instruction.cancel s.bid_id ∈ (reconcile s nbp nap nbv nav).2 ↔
      s.bid_id ≠ 0 ∧ nbp ≠ s.bid_price ∧ nbp ≠ 0) ∧
    (Instruction.cancel s.ask_id ∈ (reconcile s nbp nap nbv nav).2 ↔
      s.ask_id ≠ 0 ∧ nap ≠ s.ask_price ∧ nap ≠ 0) := by
  rw [reconcile_snd]
  refine ⟨⟨fun h => ?_, fun hc => ?_⟩, ⟨fun h => ?_, fun hc => ?_⟩⟩
  · simp only [List.mem_append] at h
    rcases h with ((h | h) | h) | h
    · rcases Decidable.em (s.bid_id ≠ 0 ∧ nbp ≠ s.bid_price ∧ nbp ≠ 0) with hc | hc
      · exact hc
      · rw [if_neg hc] at h
        simp at h
    · rcases Decidable.em (s.ask_id ≠ 0 ∧ nap ≠ s.ask_price ∧ nap ≠ 0) with hc | hc
      · rw [if_pos hc] at h
        simp only [List.mem_singleton] at h
        injection h with h1
        have := hids h1
        omega
      · rw [if_neg hc] at h
        simp at h
    · rcases Decidable.em ((if s.bid_id ≠ 0 ∧ nbp ≠ s.bid_price ∧ nbp ≠ 0 then 0 else s.bid_id) = 0 ∧
          nbp ≠ 0 ∧ s.position + nbv < POSITION_LIMIT) with hc | hc
      · rw [if_pos hc] at h
        simp at h
      · rw [if_neg hc] at h
        simp at h
    · rcases Decidable.em ((if s.ask_id ≠ 0 ∧ nap ≠ s.ask_price ∧ nap ≠ 0 then 0 else s.ask_id) = 0 ∧
          nap ≠ 0 ∧ s.position - nav > -POSITION_LIMIT) with hc | hc
      · rw [if_pos hc] at h
        simp at h
      · rw [if_neg hc] at h
        simp at h
  · simp [hc]
  · simp only [List.mem_append] at h
    rcases h with ((h | h) | h) | h
    · rcases Decidable.em (s.bid_id ≠ 0 ∧ nbp ≠ s.bid_price ∧ nbp ≠ 0) with hc | hc
      · rw [if_pos hc] at h
        simp only [List.mem_singleton] at h
        injection h with h1
        have := hids h1.symm
        omega
      · rw [if_neg hc] at h
        simp at h
    · rcases Decidable.em (s.ask_id ≠ 0 ∧ nap ≠ s.ask_price ∧ nap ≠ 0) with hc | hc
      · exact hc
      · rw [if_neg hc] at h
        simp at h
    · rcases Decidable.em ((if s.bid_id ≠ 0 ∧ nbp ≠ s.bid_price ∧ nbp ≠ 0 then 0 else s.bid_id) = 0 ∧
          nbp ≠ 0 ∧ s.position + nbv < POSITION_LIMIT) with hc | hc
      · rw [if_pos hc] at h
        simp at h
      · rw [if_neg hc] at h
        simp at h
    · rcases Decidable.em ((if s.ask_id ≠ 0 ∧ nap ≠ s.ask_price ∧ nap ≠ 0 then 0 else s.ask_id) = 0 ∧
          nap ≠ 0 ∧ s.position - nav > -POSITION_LIMIT) with hc | hc
      · rw [if_pos hc] at h
        simp at h
      · rw [if_neg hc] at h
        simp at h
  · simp [hc]

/-- C1: on every order-book tick and from every state, the engine only sends a
buy insert of volume `v` when `position + v < POSITION_LIMIT` and a sell
insert of volume `v` when `position - v > -POSITION_LIMIT`: full execution of
any single inserted order keeps the position strictly inside the 1000 hard
limit. -/
theorem C1_insert_respects_hard_limit
    (s : TraderState) (instrument sequence_number : ℤ) (ap av bp bv : List ℤ)
    (s' : TraderState) (instrs : List Instruction)
    (hrun : on_order_book_update_message s instrument sequence_number ap av bp bv =
      some (s', instrs))
    (id : ℕ) (side : Side) (p v : ℤ) (ls : Lifespan)
    (hmem : Instruction.insert id side p v ls ∈ instrs) :
    (side = Side.BUY → s.position + v < POSITION_LIMIT) ∧
    (side = Side.SELL → s.position - v > -POSITION_LIMIT) := by
  unfold on_order_book_update_message at hrun
  by_cases hi : instrument = Instrument.FUTURE
  · rw [if_pos hi] at hrun
    cases hbp : bp[0]? with
    | none => rw [hbp] at hrun; cases hap : ap[0]? <;> rw [hap] at hrun <;>
        cases hbal : assess_market_balance ap av bp bv <;> rw [hbal] at hrun <;> cases hrun
    | some bp0 =>
      rw [hbp] at hrun
      cases hap : ap[0]? with
      | none => cases hbal : assess_market_balance ap av bp bv <;> rw [hap, hbal] at hrun <;>
          cases hrun
      | some ap0 =>
        rw [hap] at hrun
        cases hbal : assess_market_balance ap av bp bv with
        | none => rw [hbal] at hrun; cases hrun
        | some bal =>
          rw [hbal] at hrun
          injection hrun with hpair
          have hinstrs : instrs = (reconcile s (desired_price bp0) (desired_price ap0)
              (scale_volumes s.position bal (base_bid_volume s.position)
                (base_ask_volume s.position)).1
              (scale_volumes s.position bal (base_bid_volume s.position)
                (base_ask_volume s.position)).2).2 := by
            rw [hpair]
          rw [hinstrs] at hmem
          rcases mem_insert_reconcile hmem with ⟨hside, -, hv, hlim, -⟩ | ⟨hside, -, hv, hlim, -⟩
          · constructor
            · intro _
              omega
            · intro hsell
              rw [hside] at hsell
              exact Side.noConfusion hsell
          · constructor
            · intro hbuy
              rw [hside] at hbuy
              exact Side.noConfusion hbuy
            · intro _
              omega
  · rw [if_neg hi] at hrun
    injection hrun with hpair
    have hnil : instrs = [] := (congrArg Prod.snd hpair).symm
    rw [hnil] at hmem
    cases hmem

/-- Witness for C1: a concrete tick from the initial state inserts on both
sides, and the theorem yields both hard-limit bounds there. -/
theorem C1_insert_respects_hard_limit_witness :
    initialState.position + 10 < POSITION_LIMIT ∧
    initialState.position - 10 > -POSITION_LIMIT := by
  have hrun : on_order_book_update_message initialState Instrument.FUTURE 0
      [200, 0, 0, 0, 0] [10, 0, 0, 0, 0] [100, 0, 0, 0, 0] [10, 0, 0, 0, 0] =
      some ({ order_ids := 3, bids := {1}, asks := {2}, ask_id := 2, ask_price := 200,
              bid_id := 1, bid_price := 100, position := 0 },
            [Instruction.insert 1 Side.BUY 100 10 Lifespan.GOOD_FOR_DAY,
             Instruction.insert 2 Side.SELL 200 10 Lifespan.GOOD_FOR_DAY]) := by
    rw [on_order_book_update_message_eq_int]
    decide
  constructor
  · exact (C1_insert_respects_hard_limit initialState Instrument.FUTURE 0
      [200, 0, 0, 0, 0] [10, 0, 0, 0, 0] [100, 0, 0, 0, 0] [10, 0, 0, 0, 0] _ _ hrun
      1 Side.BUY 100 10 Lifespan.GOOD_FOR_DAY (by decide)).1 rfl
  · exact (C1_insert_respects_hard_limit initialState Instrument.FUTURE 0
      [200, 0, 0, 0, 0] [10, 0, 0, 0, 0] [100, 0, 0, 0, 0] [10, 0, 0, 0, 0] _ _ hrun
      2 Side.SELL 200 10 Lifespan.GOOD_FOR_DAY (by decide)).2 rfl

/-- C6: the pre-scaling bid volume is `LOT_SIZE = 10` when the position is
strictly long, else `clamp(|position|, 10, 190) = min (max 10 |position|) 190`;
symmetrically for the ask volume when strictly short. -/
theorem C6_base_volumes (position : ℤ) :
    base_bid_volume position = (if 0 < position then 10 else min (max 10 |position|) 190) ∧
    base_ask_volume position = (if position < 0 then 10 else min (max 10 |position|) 190) := by
  unfold base_bid_volume base_ask_volume LOT_SIZE VOLUME_LIMIT
  norm_num

/-- C3: whenever the soft band admits scaling, a strictly positive score
multiplies the bid volume by `min score 2`, a strictly negative score
multiplies the ask volume by `min |score| 2`, a zero score changes nothing,
and the applied multiplier never exceeds the bound 2. -/
theorem C3_clamped_multiplier (position balance bidVol askVol : ℤ)
    (hband : position ≤ POSITION_SOFT_LIMIT) :
    (0 < balance →
      scale_volumes position balance bidVol askVol = (bidVol * min balance 2, askVol) ∧
        min balance 2 ≤ 2) ∧
    (balance < 0 →
      scale_volumes position balance bidVol askVol = (bidVol, askVol * min |balance| 2) ∧
        min |balance| 2 ≤ 2) ∧
    (balance = 0 → scale_volumes position balance bidVol askVol = (bidVol, askVol)) := by
  refine ⟨fun hb => ⟨?_, min_le_right _ _⟩, fun hb => ⟨?_, min_le_right _ _⟩, fun hb => ?_⟩
  · have hmin : (if balance > MARKET_BALANCE_LIMIT then MARKET_BALANCE_LIMIT else balance) =
        min balance 2 := by
      unfold MARKET_BALANCE_LIMIT
      split_ifs <;> omega
    simp only [scale_volumes, if_pos hband, if_pos hb, hmin]
  · have hmin : -(if balance < -MARKET_BALANCE_LIMIT then -MARKET_BALANCE_LIMIT else balance) =
        min |balance| 2 := by
      rw [abs_of_neg hb]
      unfold MARKET_BALANCE_LIMIT
      split_ifs <;> omega
    have hnb : ¬ (balance > 0) := by omega
    simp only [scale_volumes, if_pos hband, if_neg hnb, if_pos hb, hmin]
  · subst hb
    simp [scale_volumes, if_pos hband]

/-- Witness for C3: position 0, score 2 on base volumes (10, 10). -/
theorem C3_clamped_multiplier_witness :
    scale_volumes 0 2 10 10 = (10 * min 2 2, 10) ∧ min (2 : ℤ) 2 ≤ 2 :=
  (C3_clamped_multiplier 0 2 10 10 (by decide)).1 (by decide)

/-- C2 (amended): imbalance scaling is applied exactly when the *signed*
position is at most `POSITION_SOFT_LIMIT = 600` — not when `|position| ≤ 600`:
inside that band the clamped score scales one side, outside it (only possible
for long positions) the step-2 base volumes pass through unchanged. -/
theorem C2_soft_band_is_signed (position balance bidVol askVol : ℤ) :
    (position ≤ POSITION_SOFT_LIMIT →
      scale_volumes position balance bidVol askVol =
        (if 0 < balance then (bidVol * min balance MARKET_BALANCE_LIMIT, askVol)
         else if balance < 0 then (bidVol, askVol * min (-balance) MARKET_BALANCE_LIMIT)
         else (bidVol, askVol))) ∧
    (POSITION_SOFT_LIMIT < position →
      scale_volumes position balance bidVol askVol = (bidVol, askVol)) := by
  constructor
  · intro hband
    rcases lt_trichotomy balance 0 with hb | hb | hb
    · have hmin : -(if balance < -MARKET_BALANCE_LIMIT then -MARKET_BALANCE_LIMIT else balance) =
          min (-balance) MARKET_BALANCE_LIMIT := by
        unfold MARKET_BALANCE_LIMIT
        split_ifs <;> omega
      have hnb : ¬ (balance > 0) := by omega
      have hr : (if 0 < balance then (bidVol * min balance MARKET_BALANCE_LIMIT, askVol)
          else if balance < 0 then (bidVol, askVol * min (-balance) MARKET_BALANCE_LIMIT)
          else (bidVol, askVol)) = (bidVol, askVol * min (-balance) MARKET_BALANCE_LIMIT) := by
        rw [if_neg hnb, if_pos hb]
      rw [hr]
      simp only [scale_volumes, if_pos hband, if_neg hnb, if_pos hb, hmin]
    · subst hb
      simp [scale_volumes, if_pos hband]
    · have hmin : (if balance > MARKET_BALANCE_LIMIT then MARKET_BALANCE_LIMIT else balance) =
          min balance MARKET_BALANCE_LIMIT := by
        unfold MARKET_BALANCE_LIMIT
        split_ifs <;> omega
      rw [if_pos hb]
      simp only [scale_volumes, if_pos hband, if_pos hb, hmin]
  · intro hout
    have : ¬ (position ≤ POSITION_SOFT_LIMIT) := by omega
    simp only [scale_volumes, if_neg this]

/-- Witness for C2: a short position of −700 is scaled (band is signed), while
+601 is not. -/
theorem C2_soft_band_is_signed_witness :
    scale_volumes (-700) 2 190 10 = (380, 10) ∧ scale_volumes 601 2 190 10 = (190, 10) := by
  constructor
  · have h := (C2_soft_band_is_signed (-700) 2 190 10).1 (by decide)
    simpa using h
  · exact (C2_soft_band_is_signed 601 2 190 10).2 (by decide)

/-- Counterexample for C2 as stated: at position −700 we have
`|position| > 600`, yet the tick still applies imbalance scaling — the bid
insert goes out with volume 380 = 2 · 190, not the unscaled base volume 190. -/
theorem C2_counterexample :
    |(-700 : ℤ)| > POSITION_SOFT_LIMIT ∧
    Option.map (fun r => insertVolumes r.2)
      (on_order_book_update_message
        { order_ids := 1, bids := ∅, asks := ∅, ask_id := 0, ask_price := 0,
          bid_id := 0, bid_price := 0, position := -700 }
        Instrument.FUTURE 0 [200, 0, 0, 0, 0] [300, 0, 0, 0, 0]
        [100, 0, 0, 0, 0] [10, 0, 0, 0, 0]) = some [380, 10] ∧
    base_bid_volume (-700) = 190 ∧ base_ask_volume (-700) = 10 ∧ (380 : ℤ) ≠ 190 := by
  refine ⟨by decide, ?_, by decide, by decide, by decide⟩
  rw [on_order_book_update_message_eq_int]
  decide

/-- Closed form of `assess_market_balance` on books with at least three
levels per side. -/
theorem assess_market_balance_cons (pa0 pa1 pa2 : ℤ) (par : List ℤ) (a0 a1 a2 : ℤ)
    (ar : List ℤ) (pb0 pb1 pb2 : ℤ) (pbr : List ℤ) (b0 b1 b2 : ℤ) (br : List ℤ) :
    assess_market_balance (pa0 :: pa1 :: pa2 :: par) (a0 :: a1 :: a2 :: ar)
        (pb0 :: pb1 :: pb2 :: pbr) (b0 :: b1 :: b2 :: br) =
      some (ratTrunc (((7/10) * (a0 : ℚ) + (2/10) * (a1 : ℚ) + (1/10) * (a2 : ℚ) -
        ((7/10) * (b0 : ℚ) + (2/10) * (b1 : ℚ) + (1/10) * (b2 : ℚ))) / 100)) := by
  simp only [assess_market_balance, List.length_cons, List.length_nil, List.take_succ_cons,
    List.take_zero, List.zip_cons_cons, List.zip_nil_right, balance_loop]
  congr 1
  congr 1
  ring

/-- C7: on a tick for the tracked instrument, a cancel for a side's resting
order is issued iff that side's identifier is live, the newly desired price is
nonzero, and it differs from the recorded price; equal or zero desired prices
never cancel. -/
theorem C7_cancel_iff (s : TraderState) (sequence_number : ℤ) (ap av bp bv : List ℤ)
    (bp0 ap0 : ℤ) (s' : TraderState) (instrs : List Instruction)
    (hids : s.bid_id = s.ask_id → s.bid_id = 0)
    (hbp : bp[0]? = some bp0) (hap : ap[0]? = some ap0)
    (hrun : on_order_book_update_message s Instrument.FUTURE sequence_number ap av bp bv =
      some (s', instrs)) :
    (Instruction.cancel s.bid_id ∈ instrs ↔
      s.bid_id ≠ 0 ∧ desired_price bp0 ≠ s.bid_price ∧ desired_price bp0 ≠ 0) ∧
    (Instruction.cancel s.ask_id ∈ instrs ↔
      s.ask_id ≠ 0 ∧ desired_price ap0 ≠ s.ask_price ∧ desired_price ap0 ≠ 0) := by
  unfold on_order_book_update_message at hrun
  rw [if_pos rfl, hbp, hap] at hrun
  cases hbal : assess_market_balance ap av bp bv with
  | none => rw [hbal] at hrun; cases hrun
  | some bal =>
    rw [hbal] at hrun
    injection hrun with hpair
    have hinstrs : instrs = (reconcile s (desired_price bp0) (desired_price ap0)
        (scale_volumes s.position bal (base_bid_volume s.position)
          (base_ask_volume s.position)).1
        (scale_volumes s.position bal (base_bid_volume s.position)
          (base_ask_volume s.position)).2).2 := by
      rw [hpair]
    rw [hinstrs]
    exact mem_cancel_reconcile s (desired_price bp0) (desired_price ap0) _ _ hids

/-- Witness for C7 at a state with a live bid (id 1, price 100) and a live ask
(id 2, price 200), on a tick whose best bid moved to 101 and best ask stayed
at 200: the bid cancel is issued, the ask cancel is not. -/
theorem C7_cancel_iff_witness :
    (Instruction.cancel 1 ∈
        [Instruction.cancel 1, Instruction.insert 3 Side.BUY 101 10 Lifespan.GOOD_FOR_DAY] ↔
      (1 : ℕ) ≠ 0 ∧ desired_price 101 ≠ 100 ∧ desired_price 101 ≠ 0) ∧
    (Instruction.cancel 2 ∈
        [Instruction.cancel 1, Instruction.insert 3 Side.BUY 101 10 Lifespan.GOOD_FOR_DAY] ↔
      (2 : ℕ) ≠ 0 ∧ desired_price 200 ≠ 200 ∧ desired_price 200 ≠ 0) := by
  have h := C7_cancel_iff
    { order_ids := 3, bids := {1}, asks := {2}, ask_id := 2, ask_price := 200,
      bid_id := 1, bid_price := 100, position := 0 }
    0 [200, 0, 0, 0, 0] [10, 0, 0, 0, 0] [101, 0, 0, 0, 0] [10, 0, 0, 0, 0]
    101 200
    { order_ids := 4, bids := {3, 1}, asks := {2}, ask_id := 2, ask_price := 200,
      bid_id := 3, bid_price := 101, position := 0 }
    [Instruction.cancel 1, Instruction.insert 3 Side.BUY 101 10 Lifespan.GOOD_FOR_DAY]
    (by decide) (by decide) (by decide)
    (by rw [on_order_book_update_message_eq_int]; decide)
  exact h

/-- C8: delivering the same zero-remaining-volume status twice for one
identifier changes nothing after the first delivery (ledger idempotence); the
hypothesis records the single-order-per-side ledger shape (the two live
identifiers coincide only when cleared). -/
theorem C8_status_idempotent (s : TraderState) (client_order_id : ℕ)
    (fill_volume fees : ℤ) (hids : s.bid_id = s.ask_id → s.bid_id = 0) :
    on_order_status_message (on_order_status_message s client_order_id fill_volume 0 fees)
        client_order_id fill_volume 0 fees =
      on_order_status_message s client_order_id fill_volume 0 fees := by
  by_cases h1 : client_order_id = s.bid_id <;> by_cases h2 : client_order_id = s.ask_id <;>
    simp_all [on_order_status_message, Finset.erase_idem] <;>
    split_ifs <;> simp_all [Finset.erase_idem]

/-- Witness for C8 at a ledger holding bid 1 and ask 2, closing order 1. -/
theorem C8_status_idempotent_witness :
    on_order_status_message (on_order_status_message
        { order_ids := 3, bids := {1}, asks := {2}, ask_id := 2, ask_price := 200,
          bid_id := 1, bid_price := 100, position := 0 } 1 10 0 0) 1 10 0 0 =
      on_order_status_message
        { order_ids := 3, bids := {1}, asks := {2}, ask_id := 2, ask_price := 200,
          bid_id := 1, bid_price := 100, position := 0 } 1 10 0 0 :=
  C8_status_idempotent
    { order_ids := 3, bids := {1}, asks := {2}, ask_id := 2, ask_price := 200,
      bid_id := 1, bid_price := 100, position := 0 } 1 10 0 (by decide)

/-- C9: a fill for a tracked buy order adds exactly its volume to the
position, one for a tracked sell order subtracts it, an untracked fill is
silently ignored, and a fill never touches the ledger fields — the order
stays live until a zero-remaining-volume status. -/
theorem C9_fill_handling (s : TraderState) (client_order_id : ℕ) (price volume : ℤ)
    (hdisj : Disjoint s.bids s.asks) :
    (client_order_id ∈ s.bids →
      on_order_filled_message s client_order_id price volume =
        { s with position := s.position + volume }) ∧
    (client_order_id ∈ s.asks →
      on_order_filled_message s client_order_id price volume =
        { s with position := s.position - volume }) ∧
    (client_order_id ∉ s.bids → client_order_id ∉ s.asks →
      on_order_filled_message s client_order_id price volume = s) ∧
    ((on_order_filled_message s client_order_id price volume).bids = s.bids ∧
     (on_order_filled_message s client_order_id price volume).asks = s.asks ∧
     (on_order_filled_message s client_order_id price volume).bid_id = s.bid_id ∧
     (on_order_filled_message s client_order_id price volume).ask_id = s.ask_id ∧
     (on_order_filled_message s client_order_id price volume).bid_price = s.bid_price ∧
     (on_order_filled_message s client_order_id price volume).ask_price = s.ask_price ∧
     (on_order_filled_message s client_order_id price volume).order_ids = s.order_ids) := by
  refine ⟨fun hb => ?_, fun ha => ?_, fun hb ha => ?_, ?_⟩
  · simp [on_order_filled_message, hb]
  · have hb : client_order_id ∉ s.bids := Finset.disjoint_right.mp hdisj ha
    simp [on_order_filled_message, hb, ha]
  · simp [on_order_filled_message, hb, ha]
  · unfold on_order_filled_message
    split_ifs <;> simp

/-- Witness for C9: all three fill behaviours at a concrete ledger. -/
theorem C9_fill_handling_witness :
    (on_order_filled_message
        { order_ids := 3, bids := {1}, asks := {2}, ask_id := 2, ask_price := 200,
          bid_id := 1, bid_price := 100, position := 0 } 1 100 7 =
      { order_ids := 3, bids := {1}, asks := {2}, ask_id := 2, ask_price := 200,
        bid_id := 1, bid_price := 100, position := 0 + 7 }) ∧
    (on_order_filled_message
        { order_ids := 3, bids := {1}, asks := {2}, ask_id := 2, ask_price := 200,
          bid_id := 1, bid_price := 100, position := 0 } 9 100 7 =
      { order_ids := 3, bids := {1}, asks := {2}, ask_id := 2, ask_price := 200,
        bid_id := 1, bid_price := 100, position := 0 }) := by
  constructor
  · exact (C9_fill_handling
      { order_ids := 3, bids := {1}, asks := {2}, ask_id := 2, ask_price := 200,
        bid_id := 1, bid_price := 100, position := 0 } 1 100 7 (by decide)).1 (by decide)
  · exact ((C9_fill_handling
      { order_ids := 3, bids := {1}, asks := {2}, ask_id := 2, ask_price := 200,
        bid_id := 1, bid_price := 100, position := 0 } 9 100 7 (by decide)).2.2).1
      (by decide) (by decide)

/-- The step-2 base volumes always lie between `LOT_SIZE` and
`VOLUME_LIMIT - LOT_SIZE`. -/
theorem base_volume_bounds (position : ℤ) :
    LOT_SIZE ≤ base_bid_volume position ∧ base_bid_volume position ≤ VOLUME_LIMIT - LOT_SIZE ∧
    LOT_SIZE ≤ base_ask_volume position ∧ base_ask_volume position ≤ VOLUME_LIMIT - LOT_SIZE := by
  unfold base_bid_volume base_ask_volume LOT_SIZE VOLUME_LIMIT
  simp only [Int.abs_eq_natAbs]
  split_ifs <;> omega

/-- Imbalance scaling multiplies one side by a factor of at most
`MARKET_BALANCE_LIMIT`, so volumes within the base range stay at most
`MARKET_BALANCE_LIMIT * (VOLUME_LIMIT - LOT_SIZE)`. -/
theorem scale_volumes_bounded (position balance bidVol askVol : ℤ)
    (hb0 : 0 ≤ bidVol) (hb1 : bidVol ≤ VOLUME_LIMIT - LOT_SIZE)
    (ha0 : 0 ≤ askVol) (ha1 : askVol ≤ VOLUME_LIMIT - LOT_SIZE) :
    (scale_volumes position balance bidVol askVol).1 ≤
      MARKET_BALANCE_LIMIT * (VOLUME_LIMIT - LOT_SIZE) ∧
    (scale_volumes position balance bidVol askVol).2 ≤
      MARKET_BALANCE_LIMIT * (VOLUME_LIMIT - LOT_SIZE) := by
  have hc : MARKET_BALANCE_LIMIT * (VOLUME_LIMIT - LOT_SIZE) = 380 := by decide
  have hv : VOLUME_LIMIT - LOT_SIZE = 190 := by decide
  rw [hc]
  rw [hv] at hb1 ha1
  by_cases hband : position ≤ POSITION_SOFT_LIMIT
  · rcases lt_trichotomy balance 0 with hb | hb | hb
    · have hnot : ¬ (balance > 0) := by omega
      have hble : -(if balance < -MARKET_BALANCE_LIMIT then -MARKET_BALANCE_LIMIT else balance) ≤ 2 ∧
          0 ≤ -(if balance < -MARKET_BALANCE_LIMIT then -MARKET_BALANCE_LIMIT else balance) := by
        unfold MARKET_BALANCE_LIMIT
        split_ifs <;> omega
      simp only [scale_volumes, if_pos hband, if_neg hnot, if_pos hb]
      exact ⟨by omega, by nlinarith [hble.1, hble.2]⟩
    · subst hb
      have hnot : ¬ ((0 : ℤ) > 0) := by omega
      have hnot2 : ¬ ((0 : ℤ) < 0) := by omega
      simp only [scale_volumes, if_pos hband, if_neg hnot, if_neg hnot2]
      exact ⟨by omega, by omega⟩
    · have hble : (if balance > MARKET_BALANCE_LIMIT then MARKET_BALANCE_LIMIT else balance) ≤ 2 ∧
          0 ≤ (if balance > MARKET_BALANCE_LIMIT then MARKET_BALANCE_LIMIT else balance) := by
        unfold MARKET_BALANCE_LIMIT
        split_ifs <;> omega
      simp only [scale_volumes, if_pos hband, if_pos hb]
      exact ⟨by nlinarith [hble.1, hble.2], by omega⟩
  · simp only [scale_volumes, if_neg hband]
    exact ⟨by omega, by omega⟩

set_option maxRecDepth 100000 in
/-- C10: every inserted volume is at most
`MARKET_BALANCE_LIMIT * (VOLUME_LIMIT - LOT_SIZE) = 380` (the per-order
`VOLUME_LIMIT` cap is applied to the base volume before scaling, never after),
and from a reachable state some tick actually inserts a volume strictly above
`VOLUME_LIMIT = 200`. -/
theorem C10_volume_cap_before_scaling :
    (∀ (s : TraderState) (instrument sequence_number : ℤ) (ap av bp bv : List ℤ)
        (s' : TraderState) (instrs : List Instruction) (id : ℕ) (side : Side) (p v : ℤ)
        (ls : Lifespan),
      on_order_book_update_message s instrument sequence_number ap av bp bv =
        some (s', instrs) →
      Instruction.insert id side p v ls ∈ instrs →
      v ≤ MARKET_BALANCE_LIMIT * (VOLUME_LIMIT - LOT_SIZE)) ∧
    (∃ (es : List Event) (sequence_number : ℤ) (ap av bp bv : List ℤ),
      ∃ v ∈ insertVolumes (((on_order_book_update_message (run initialState es)
          Instrument.FUTURE sequence_number ap av bp bv).map Prod.snd).getD []),
        VOLUME_LIMIT < v) := by
  constructor
  · intro s instrument sequence_number ap av bp bv s' instrs id side p v ls hrun hmem
    unfold on_order_book_update_message at hrun
    by_cases hi : instrument = Instrument.FUTURE
    · rw [if_pos hi] at hrun
      cases hbp : bp[0]? with
      | none => rw [hbp] at hrun; cases hap : ap[0]? <;> rw [hap] at hrun <;>
          cases hbal : assess_market_balance ap av bp bv <;> rw [hbal] at hrun <;> cases hrun
      | some bp0 =>
        rw [hbp] at hrun
        cases hap : ap[0]? with
        | none => cases hbal : assess_market_balance ap av bp bv <;> rw [hap, hbal] at hrun <;>
            cases hrun
        | some ap0 =>
          rw [hap] at hrun
          cases hbal : assess_market_balance ap av bp bv with
          | none => rw [hbal] at hrun; cases hrun
          | some bal =>
            rw [hbal] at hrun
            injection hrun with hpair
            have hinstrs : instrs = (reconcile s (desired_price bp0) (desired_price ap0)
                (scale_volumes s.position bal (base_bid_volume s.position)
                  (base_ask_volume s.position)).1
                (scale_volumes s.position bal (base_bid_volume s.position)
                  (base_ask_volume s.position)).2).2 := by
              rw [hpair]
            rw [hinstrs] at hmem
            have hbase := base_volume_bounds s.position
            have hlot : (0 : ℤ) ≤ LOT_SIZE := by decide
            have hbound := scale_volumes_bounded s.position bal
              (base_bid_volume s.position) (base_ask_volume s.position)
              (le_trans hlot hbase.1) hbase.2.1 (le_trans hlot hbase.2.2.1) hbase.2.2.2
            rcases mem_insert_reconcile hmem with ⟨-, -, hv, -, -⟩ | ⟨-, -, hv, -, -⟩
            · rw [hv]
              exact hbound.1
            · rw [hv]
              exact hbound.2
    · rw [if_neg hi] at hrun
      injection hrun with hpair
      have hnil : instrs = [] := (congrArg Prod.snd hpair).symm
      rw [hnil] at hmem
      cases hmem
  · refine ⟨sell_trace, 0, [200, 0, 0, 0, 0], [300, 0, 0, 0, 0],
      [101, 0, 0, 0, 0], [10, 0, 0, 0, 0], ?_⟩
    simp only [run_eq_int, on_order_book_update_message_eq_int]
    decide

/-- Witness for C10's universal part: the initial tick's ten-lot bid insert is
within the 380 cap. -/
theorem C10_volume_cap_before_scaling_witness :
    (10 : ℤ) ≤ MARKET_BALANCE_LIMIT * (VOLUME_LIMIT - LOT_SIZE) :=
  C10_volume_cap_before_scaling.1 initialState Instrument.FUTURE 0
    [200, 0, 0, 0, 0] [10, 0, 0, 0, 0] [100, 0, 0, 0, 0] [10, 0, 0, 0, 0]
    { order_ids := 3, bids := {1}, asks := {2}, ask_id := 2, ask_price := 200,
      bid_id := 1, bid_price := 100, position := 0 }
    [Instruction.insert 1 Side.BUY 100 10 Lifespan.GOOD_FOR_DAY,
     Instruction.insert 2 Side.SELL 200 10 Lifespan.GOOD_FOR_DAY]
    1 Side.BUY 100 10 Lifespan.GOOD_FOR_DAY
    (by rw [on_order_book_update_message_eq_int]; decide) (by decide)

theorem reconcile_fst (s : TraderState) (nbp nap nbv nav : ℤ) :
    (reconcile s nbp nap nbv nav).1 =
      { order_ids := s.order_ids +
          (if (if s.bid_id ≠ 0 ∧ nbp ≠ s.bid_price ∧ nbp ≠ 0 then 0 else s.bid_id) = 0 ∧
              nbp ≠ 0 ∧ s.position + nbv < POSITION_LIMIT then 1 else 0) +
          (if (if s.ask_id ≠ 0 ∧ nap ≠ s.ask_price ∧ nap ≠ 0 then 0 else s.ask_id) = 0 ∧
              nap ≠ 0 ∧ s.position - nav > -POSITION_LIMIT then 1 else 0),
        bids := if (if s.bid_id ≠ 0 ∧ nbp ≠ s.bid_price ∧ nbp ≠ 0 then 0 else s.bid_id) = 0 ∧
              nbp ≠ 0 ∧ s.position + nbv < POSITION_LIMIT then
            insert s.order_ids s.bids else s.bids,
        asks := if (if s.ask_id ≠ 0 ∧ nap ≠ s.ask_price ∧ nap ≠ 0 then 0 else s.ask_id) = 0 ∧
              nap ≠ 0 ∧ s.position - nav > -POSITION_LIMIT then
            insert (if (if s.bid_id ≠ 0 ∧ nbp ≠ s.bid_price ∧ nbp ≠ 0 then 0 else s.bid_id) = 0 ∧
                nbp ≠ 0 ∧ s.position + nbv < POSITION_LIMIT then s.order_ids + 1
              else s.order_ids) s.asks
          else s.asks,
        ask_id := if (if s.ask_id ≠ 0 ∧ nap ≠ s.ask_price ∧ nap ≠ 0 then 0 else s.ask_id) = 0 ∧
              nap ≠ 0 ∧ s.position - nav > -POSITION_LIMIT then
            (if (if s.bid_id ≠ 0 ∧ nbp ≠ s.bid_price ∧ nbp ≠ 0 then 0 else s.bid_id) = 0 ∧
                nbp ≠ 0 ∧ s.position + nbv < POSITION_LIMIT then s.order_ids + 1
              else s.order_ids)
          else if s.ask_id ≠ 0 ∧ nap ≠ s.ask_price ∧ nap ≠ 0 then 0 else s.ask_id,
        ask_price := if (if s.ask_id ≠ 0 ∧ nap ≠ s.ask_price ∧ nap ≠ 0 then 0 else s.ask_id) = 0 ∧
              nap ≠ 0 ∧ s.position - nav > -POSITION_LIMIT then nap
          else s.ask_price,
        bid_id := if (if s.bid_id ≠ 0 ∧ nbp ≠ s.bid_price ∧ nbp ≠ 0 then 0 else s.bid_id) = 0 ∧
              nbp ≠ 0 ∧ s.position + nbv < POSITION_LIMIT then s.order_ids
          else if s.bid_id ≠ 0 ∧ nbp ≠ s.bid_price ∧ nbp ≠ 0 then 0 else s.bid_id,
        bid_price := if (if s.bid_id ≠ 0 ∧ nbp ≠ s.bid_price ∧ nbp ≠ 0 then 0 else s.bid_id) = 0 ∧
              nbp ≠ 0 ∧ s.position + nbv < POSITION_LIMIT then nbp
          else s.bid_price,
        position := s.position } := by
  by_cases hc1 : s.bid_id ≠ 0 ∧ nbp ≠ s.bid_price ∧ nbp ≠ 0 <;>
    by_cases hc2 : s.ask_id ≠ 0 ∧ nap ≠ s.ask_price ∧ nap ≠ 0 <;>
    simp [reconcile, hc1, hc2, apply_ite TraderState.ask_id, apply_ite TraderState.bid_id,
      apply_ite TraderState.position, apply_ite TraderState.order_ids,
      apply_ite TraderState.bids, apply_ite TraderState.asks,
      apply_ite TraderState.bid_price, apply_ite TraderState.ask_price] <;>
    split_ifs <;> simp_all

theorem ledger_inv_initial : LedgerInv initialState := by
  refine ⟨by decide, ?_, ?_, by decide, by decide, by decide, ?_⟩ <;> simp [initialState]

theorem ledger_inv_filled (s : TraderState) (id : ℕ) (p v : ℤ) (h : LedgerInv s) :
    LedgerInv (on_order_filled_message s id p v) := by
  unfold on_order_filled_message
  split_ifs <;> exact h

theorem ledger_inv_status (s : TraderState) (id : ℕ) (fv rv fees : ℤ) (h : LedgerInv s) :
    LedgerInv (on_order_status_message s id fv rv fees) := by
  obtain ⟨h0, hbids, hasks, hbid, hask, hne, hdisj⟩ := h
  unfold LedgerInv
  simp only [on_order_status_message]
  have herase : Disjoint (s.bids.erase id) (s.asks.erase id) :=
    Finset.disjoint_of_subset_left (Finset.erase_subset _ _)
      (Finset.disjoint_of_subset_right (Finset.erase_subset _ _) hdisj)
  split_ifs with hrv h1 h2 <;>
    [skip; skip; skip;
     exact ⟨h0, hbids, hasks, hbid, hask, hne, hdisj⟩] <;>
    refine ⟨h0, fun i hi => hbids i (Finset.mem_of_mem_erase hi),
      fun i hi => hasks i (Finset.mem_of_mem_erase hi), ?_, ?_, ?_, herase⟩ <;>
    simp only <;> first | exact hne | omega | simp
theorem ledger_inv_error (s : TraderState) (id : ℕ) (h : LedgerInv s) :
    LedgerInv (on_error_message s id) := by
  unfold on_error_message
  split_ifs
  · exact ledger_inv_status s id 0 0 0 h
  · exact h

theorem ledger_inv_reconcile (s : TraderState) (nbp nap nbv nav : ℤ) (h : LedgerInv s) :
    LedgerInv (reconcile s nbp nap nbv nav).1 := by
  obtain ⟨h0, hbids, hasks, hbid, hask, hne, hdisj⟩ := h
  rw [reconcile_fst]
  by_cases hc3 : (if s.bid_id ≠ 0 ∧ nbp ≠ s.bid_price ∧ nbp ≠ 0 then 0 else s.bid_id) = 0 ∧
      nbp ≠ 0 ∧ s.position + nbv < POSITION_LIMIT <;>
    by_cases hc4 : (if s.ask_id ≠ 0 ∧ nap ≠ s.ask_price ∧ nap ≠ 0 then 0 else s.ask_id) = 0 ∧
      nap ≠ 0 ∧ s.position - nav > -POSITION_LIMIT
  · -- both sides insert: bid gets id o, ask gets id o + 1
    simp only [if_pos hc3, if_pos hc4]
    refine ⟨by simp only; omega, ?_, ?_, by simp only; omega, by simp only; omega, by simp only; omega, ?_⟩
    · simp only
      intro i hi
      rcases Finset.mem_insert.mp hi with rfl | hi
      · omega
      · have := hbids i hi
        omega
    · simp only
      intro i hi
      rcases Finset.mem_insert.mp hi with rfl | hi
      · omega
      · have := hasks i hi
        omega
    · simp only
      rw [Finset.disjoint_left]
      intro a ha hb
      rcases Finset.mem_insert.mp ha with rfl | ha
      · rcases Finset.mem_insert.mp hb with h' | hb
        · omega
        · have := hasks _ hb
          omega
      · rcases Finset.mem_insert.mp hb with rfl | hb
        · have := hbids _ ha
          omega
        · exact Finset.disjoint_left.mp hdisj ha hb
  · -- only the bid inserts
    simp only [if_pos hc3, if_neg hc4]
    refine ⟨by simp only; omega, ?_, ?_, by simp only; omega, ?_, ?_, ?_⟩
    · simp only
      intro i hi
      rcases Finset.mem_insert.mp hi with rfl | hi
      · omega
      · have := hbids i hi
        omega
    · simp only
      intro i hi
      have := hasks i hi
      omega
    · simp only
      split_ifs <;> omega
    · simp only
      split_ifs <;> omega
    · simp only
      rw [Finset.disjoint_left]
      intro a ha hb
      rcases Finset.mem_insert.mp ha with rfl | ha
      · have := hasks _ hb
        omega
      · exact Finset.disjoint_left.mp hdisj ha hb
  · -- only the ask inserts
    simp only [if_neg hc3, if_pos hc4]
    refine ⟨by simp only; omega, ?_, ?_, ?_, by simp only; omega, ?_, ?_⟩
    · simp only
      intro i hi
      have := hbids i hi
      omega
    · simp only
      intro i hi
      rcases Finset.mem_insert.mp hi with rfl | hi
      · omega
      · have := hasks i hi
        omega
    · simp only
      split_ifs <;> omega
    · simp only
      split_ifs <;> omega
    · simp only
      rw [Finset.disjoint_right]
      intro a ha hb
      rcases Finset.mem_insert.mp ha with rfl | ha
      · have := hbids _ hb
        omega
      · exact Finset.disjoint_left.mp hdisj hb ha
  · -- neither side inserts
    simp only [if_neg hc3, if_neg hc4]
    refine ⟨by simp only; omega, hbids, hasks, ?_, ?_, ?_, hdisj⟩
    · simp only
      split_ifs <;> omega
    · simp only
      split_ifs <;> omega
    · simp only
      split_ifs <;> omega

theorem ledger_inv_book (s : TraderState) (instrument sequence_number : ℤ)
    (ap av bp bv : List ℤ) (s' : TraderState) (instrs : List Instruction) (h : LedgerInv s)
    (hrun : on_order_book_update_message s instrument sequence_number ap av bp bv =
      some (s', instrs)) : LedgerInv s' := by
  unfold on_order_book_update_message at hrun
  by_cases hi : instrument = Instrument.FUTURE
  · rw [if_pos hi] at hrun
    cases hbp : bp[0]? with
    | none => rw [hbp] at hrun; cases hap : ap[0]? <;> rw [hap] at hrun <;>
        cases hbal : assess_market_balance ap av bp bv <;> rw [hbal] at hrun <;> cases hrun
    | some bp0 =>
      rw [hbp] at hrun
      cases hap : ap[0]? with
      | none => cases hbal : assess_market_balance ap av bp bv <;> rw [hap, hbal] at hrun <;>
          cases hrun
      | some ap0 =>
        rw [hap] at hrun
        cases hbal : assess_market_balance ap av bp bv with
        | none => rw [hbal] at hrun; cases hrun
        | some bal =>
          rw [hbal] at hrun
          injection hrun with hpair
          have hs' : s' = (reconcile s (desired_price bp0) (desired_price ap0)
              (scale_volumes s.position bal (base_bid_volume s.position)
                (base_ask_volume s.position)).1
              (scale_volumes s.position bal (base_bid_volume s.position)
                (base_ask_volume s.position)).2).1 := (congrArg Prod.fst hpair).symm
          rw [hs']
          exact ledger_inv_reconcile s _ _ _ _ h
  · rw [if_neg hi] at hrun
    injection hrun with hpair
    have hs' : s' = s := (congrArg Prod.fst hpair).symm
    rw [hs']
    exact h

theorem ledger_inv_step (s : TraderState) (e : Event) (h : LedgerInv s) :
    LedgerInv (step s e) := by
  cases e with
  | book_update i sq ap av bp bv =>
    show LedgerInv (match on_order_book_update_message s i sq ap av bp bv with
      | some (s', _) => s' | none => s)
    cases hrun : on_order_book_update_message s i sq ap av bp bv with
    | none => exact h
    | some r => exact ledger_inv_book s i sq ap av bp bv r.1 r.2 h (by rw [hrun])
  | order_filled id p v => exact ledger_inv_filled s id p v h
  | order_status id fv rv fees => exact ledger_inv_status s id fv rv fees h
  | error_message id => exact ledger_inv_error s id h

/-- Every reachable trader state keeps the single-order-per-side ledger shape:
identifiers below the counter, the two live identifiers distinct unless
cleared, and the bid and ask ledgers disjoint. -/
theorem ledger_inv_run (es : List Event) : ∀ s : TraderState, LedgerInv s →
    LedgerInv (run s es) := by
  induction es with
  | nil => intro s h; exact h
  | cons e es ih =>
    intro s h
    show LedgerInv (run (step s e) es)
    exact ih _ (ledger_inv_step s e h)

/-- The hypotheses used for C7, C8 and C9 hold at every reachable state: the
live identifiers coincide only when cleared, and the bid/ask sets are
disjoint. -/
theorem reachable_ledger_shape (es : List Event) :
    ((run initialState es).bid_id = (run initialState es).ask_id →
      (run initialState es).bid_id = 0) ∧
    Disjoint (run initialState es).bids (run initialState es).asks :=
  ⟨(ledger_inv_run es initialState ledger_inv_initial).2.2.2.2.2.1,
   (ledger_inv_run es initialState ledger_inv_initial).2.2.2.2.2.2⟩

/-- Truncation toward zero of an integer-valued rational is the integer. -/
theorem ratTrunc_intCast (n : ℤ) : ratTrunc (n : ℚ) = n := by
  unfold ratTrunc
  split_ifs with h
  · have hneg : -((n : ℚ)) = ((-n : ℤ) : ℚ) := by push_cast; ring
    rw [hneg, Int.floor_intCast]
    omega
  · exact Int.floor_intCast n

/-- `Dyadic.trunc` is truncation toward zero of the dyadic's exact value. -/
theorem Dyadic.trunc_eq_ratTrunc (x : Dyadic) : x.trunc = ratTrunc x.toRat := by
  unfold Dyadic.trunc Dyadic.toRat
  split_ifs with h
  · rw [ratTrunc_intCast]
  · rw [ratTrunc_intCast_div_natCast]
    norm_cast

/-- Closed form of the binary64 score on books with at least three levels
per side: the loop performs exactly these rounded operations. -/
theorem assess_market_balance_float_cons (pa0 pa1 pa2 : ℤ) (par : List ℤ) (a0 a1 a2 : ℤ)
    (ar : List ℤ) (pb0 pb1 pb2 : ℤ) (pbr : List ℤ) (b0 b1 b2 : ℤ) (br : List ℤ) :
    assess_market_balance_float (pa0 :: pa1 :: pa2 :: par) (a0 :: a1 :: a2 :: ar)
        (pb0 :: pb1 :: pb2 :: pbr) (b0 :: b1 :: b2 :: br) =
      some (ratTrunc (Dyadic.toRat (fdivByNat
        (fsub (fadd (fsub (fadd (fsub (fadd ⟨0, 0⟩
          (fmul (toDouble a0) (ratToDouble 7 10))) (fmul (toDouble b0) (ratToDouble 7 10)))
          (fmul (toDouble a1) (ratToDouble 2 10))) (fmul (toDouble b1) (ratToDouble 2 10)))
          (fmul (toDouble a2) (ratToDouble 1 10))) (fmul (toDouble b2) (ratToDouble 1 10)))
        (10 ^ 2)))) := by
  rw [← Dyadic.trunc_eq_ratTrunc]
  rfl

set_option maxRecDepth 100000 in
/-- C4 (amended): `assess_market_balance` evaluates the weighted sum in IEEE
binary64 arithmetic, so for every book with at least three levels per side
and volumes in the exactly-representable range `|v| < 2 ^ 53` it returns the
truncation toward zero of the binary64 evaluation of
`(Σ wᵢ·askVolᵢ − Σ wᵢ·bidVolᵢ) / 100` with the weight literals rounded to
binary64 — not of the exact rational value, from which it can differ (see the
counterexample); for ask volumes `[50, 50, 50]` against bid volumes
`[0, 0, 0]` it returns `0` as claimed. -/
theorem C4_score_is_binary64_truncated_weighted_sum :
    (∀ (pa0 pa1 pa2 : ℤ) (par : List ℤ) (a0 a1 a2 : ℤ) (ar : List ℤ)
        (pb0 pb1 pb2 : ℤ) (pbr : List ℤ) (b0 b1 b2 : ℤ) (br : List ℤ),
      |a0| < 2 ^ 53 → |a1| < 2 ^ 53 → |a2| < 2 ^ 53 →
      |b0| < 2 ^ 53 → |b1| < 2 ^ 53 → |b2| < 2 ^ 53 →
      assess_market_balance_float (pa0 :: pa1 :: pa2 :: par) (a0 :: a1 :: a2 :: ar)
          (pb0 :: pb1 :: pb2 :: pbr) (b0 :: b1 :: b2 :: br) =
        some (ratTrunc (Dyadic.toRat (fdivByNat
          (fsub (fadd (fsub (fadd (fsub (fadd ⟨0, 0⟩
            (fmul (toDouble a0) (ratToDouble 7 10))) (fmul (toDouble b0) (ratToDouble 7 10)))
            (fmul (toDouble a1) (ratToDouble 2 10))) (fmul (toDouble b1) (ratToDouble 2 10)))
            (fmul (toDouble a2) (ratToDouble 1 10))) (fmul (toDouble b2) (ratToDouble 1 10)))
          (10 ^ 2))))) ∧
    assess_market_balance_float [101, 102, 103, 104, 105] [50, 50, 50, 0, 0]
        [100, 99, 98, 97, 96] [0, 0, 0, 0, 0] = some 0 := by
  constructor
  · intro pa0 pa1 pa2 par a0 a1 a2 ar pb0 pb1 pb2 pbr b0 b1 b2 br _ _ _ _ _ _
    exact assess_market_balance_float_cons pa0 pa1 pa2 par a0 a1 a2 ar pb0 pb1 pb2 pbr b0 b1 b2 br
  · decide

set_option maxRecDepth 100000 in
/-- Witness for C4: the amended closed form at the scenario book, with all
volume bounds discharged. -/
theorem C4_score_is_binary64_truncated_weighted_sum_witness :
    assess_market_balance_float [101, 102, 103, 104, 105] [50, 50, 50, 0, 0]
        [100, 99, 98, 97, 96] [0, 0, 0, 0, 0] =
      some (ratTrunc (Dyadic.toRat (fdivByNat
        (fsub (fadd (fsub (fadd (fsub (fadd ⟨0, 0⟩
          (fmul (toDouble 50) (ratToDouble 7 10))) (fmul (toDouble 0) (ratToDouble 7 10)))
          (fmul (toDouble 50) (ratToDouble 2 10))) (fmul (toDouble 0) (ratToDouble 2 10)))
          (fmul (toDouble 50) (ratToDouble 1 10))) (fmul (toDouble 0) (ratToDouble 1 10)))
        (10 ^ 2)))) :=
  C4_score_is_binary64_truncated_weighted_sum.1 101 102 103 [104, 105] 50 50 50 [0, 0]
    100 99 98 [97, 96] 0 0 0 [0, 0]
    (by decide) (by decide) (by decide) (by decide) (by decide) (by decide)

set_option maxRecDepth 100000 in
/-- Counterexample for C4 as stated: at ask volumes `[11000, 0, 0]` against
bid volumes `[0, 0, 0]` the binary64 program computes
`11000 * 0.7 = 7699.9999999999991` and returns `76`, while the claim's exact
formula `(Σ wᵢ·askVolᵢ − Σ wᵢ·bidVolᵢ) / 100` truncated toward zero gives
`77`. -/
theorem C4_counterexample :
    assess_market_balance_float [101, 102, 103, 104, 105] [11000, 0, 0, 0, 0]
        [100, 99, 98, 97, 96] [0, 0, 0, 0, 0] = some 76 ∧
    assess_market_balance [101, 102, 103, 104, 105] [11000, 0, 0, 0, 0]
        [100, 99, 98, 97, 96] [0, 0, 0, 0, 0] = some 77 ∧
    ratTrunc (((7/10) * ((11000 : ℤ) : ℚ) + (2/10) * ((0 : ℤ) : ℚ) + (1/10) * ((0 : ℤ) : ℚ) -
      ((7/10) * ((0 : ℤ) : ℚ) + (2/10) * ((0 : ℤ) : ℚ) + (1/10) * ((0 : ℤ) : ℚ))) / 100) = 77 ∧
    (76 : ℤ) ≠ 77 := by
  have hexact : assess_market_balance [101, 102, 103, 104, 105] [11000, 0, 0, 0, 0]
      [100, 99, 98, 97, 96] [0, 0, 0, 0, 0] = some 77 := by
    rw [assess_market_balance_eq_int]
    decide
  refine ⟨by decide, hexact, ?_, by decide⟩
  have h := assess_market_balance_cons 101 102 103 [104, 105] 11000 0 0 [0, 0]
    100 99 98 [97, 96] 0 0 0 [0, 0]
  rw [hexact] at h
  exact (Option.some.injEq _ _).mp h.symm

/-- Adding and subtracting an exact binary64 zero does not change the value
entering the final division. -/
theorem fdivByNat_addsub_zero (x : Dyadic) (d : ℕ) :
    fdivByNat (fsub (fadd x ⟨0, 0⟩) ⟨0, 0⟩) d = fdivByNat x d := by
  by_cases hm : x.m = 0
  · simp [fadd, fsub, fneg, fdivByNat, hm]
  · simp [fadd, fsub, fneg, fdivByNat, hm]

set_option maxRecDepth 100000 in
/-- C5 (amended): with at least three levels per side (volumes in the
exactly-representable range) the binary64 computation succeeds, and a
zero-volume third level contributes exactly nothing to the score even in
rounded arithmetic — absent levels are represented as zero-volume entries;
on literally fewer than three levels per side the computation fails instead
(see the counterexample). -/
theorem C5_short_level_handling :
    (∀ ap av bp bv : List ℤ, 3 ≤ ap.length → 3 ≤ av.length → 3 ≤ bp.length → 3 ≤ bv.length →
      (∀ v ∈ av, |v| < 2 ^ 53) → (∀ v ∈ bv, |v| < 2 ^ 53) →
      (assess_market_balance_float ap av bp bv).isSome) ∧
    (∀ pa0 pa1 pz a0 a1 pb0 pb1 qz b0 b1 : ℤ,
      |a0| < 2 ^ 53 → |a1| < 2 ^ 53 → |b0| < 2 ^ 53 → |b1| < 2 ^ 53 →
      assess_market_balance_float [pa0, pa1, pz] [a0, a1, 0] [pb0, pb1, qz] [b0, b1, 0] =
        some (ratTrunc (Dyadic.toRat (fdivByNat
          (fsub (fadd (fsub (fadd ⟨0, 0⟩ (fmul (toDouble a0) (ratToDouble 7 10)))
            (fmul (toDouble b0) (ratToDouble 7 10))) (fmul (toDouble a1) (ratToDouble 2 10)))
            (fmul (toDouble b1) (ratToDouble 2 10))) (10 ^ 2))))) := by
  constructor
  · intro ap av bp bv hap hav hbp hbv _ _
    rcases ap with _ | ⟨x1, _ | ⟨x2, _ | ⟨x3, xr⟩⟩⟩ <;> simp at hap
    rcases av with _ | ⟨y1, _ | ⟨y2, _ | ⟨y3, yr⟩⟩⟩ <;> simp at hav
    rcases bp with _ | ⟨z1, _ | ⟨z2, _ | ⟨z3, zr⟩⟩⟩ <;> simp at hbp
    rcases bv with _ | ⟨u1, _ | ⟨u2, _ | ⟨u3, ur⟩⟩⟩ <;> simp at hbv
    rw [assess_market_balance_float_cons]
    rfl
  · intro pa0 pa1 pz a0 a1 pb0 pb1 qz b0 b1 _ _ _ _
    rw [← Dyadic.trunc_eq_ratTrunc]
    show some (Dyadic.trunc (fdivByNat
        (fsub (fadd (fsub (fadd (fsub (fadd ⟨0, 0⟩ (fmul (toDouble a0) (ratToDouble 7 10)))
          (fmul (toDouble b0) (ratToDouble 7 10))) (fmul (toDouble a1) (ratToDouble 2 10)))
          (fmul (toDouble b1) (ratToDouble 2 10))) (fmul (toDouble 0) (ratToDouble 1 10)))
          (fmul (toDouble 0) (ratToDouble 1 10)))
        (10 ^ 2))) = _
    have hz : fmul (toDouble 0) (ratToDouble 1 10) = ⟨0, 0⟩ := by decide
    rw [hz, fdivByNat_addsub_zero]

set_option maxRecDepth 100000 in
/-- Witness for C5: the amended success property at a concrete five-level
book, all hypotheses discharged. -/
theorem C5_short_level_handling_witness :
    (assess_market_balance_float [101, 102, 103, 104, 105] [50, 50, 50, 0, 0]
      [100, 99, 98, 97, 96] [0, 0, 0, 0, 0]).isSome :=
  C5_short_level_handling.1 [101, 102, 103, 104, 105] [50, 50, 50, 0, 0]
    [100, 99, 98, 97, 96] [0, 0, 0, 0, 0] (by decide) (by decide) (by decide) (by decide)
    (by decide) (by decide)

set_option maxRecDepth 100000 in
/-- Counterexample for C5 as stated: a book with only two levels per side
does not succeed — in the binary64 program (and in the exact idealisation
alike) `asks[2]` raises an `IndexError` after `zip` truncation, modelled as
`none`, instead of padding the absent level with zero volume. -/
theorem C5_counterexample :
    ([100, 99] : List ℤ).length < 3 ∧
    assess_market_balance_float [100, 99] [5, 5] [98, 97] [5, 5] = none ∧
    assess_market_balance [100, 99] [5, 5] [98, 97] [5, 5] = none := by
  refine ⟨by decide, by decide, ?_⟩
  rw [assess_market_balance_eq_int]
  decide

set_option maxRecDepth 100000 in
/-- On every concrete order book appearing in the proofs of the control-loop
claims — the balanced book of the scenario trace, the moved-bid book of the
cancel witness, and the two ask-heavy books of the soft-band counterexample
and the oversized-insert trace — the binary64 score and the exact-rational
idealisation agree. -/
theorem float_scores_agree_on_quoted_books :
    assess_market_balance_float [200, 0, 0, 0, 0] [10, 0, 0, 0, 0] [100, 0, 0, 0, 0]
        [10, 0, 0, 0, 0] =
      assess_market_balance [200, 0, 0, 0, 0] [10, 0, 0, 0, 0] [100, 0, 0, 0, 0]
        [10, 0, 0, 0, 0] ∧
    assess_market_balance_float [200, 0, 0, 0, 0] [10, 0, 0, 0, 0] [101, 0, 0, 0, 0]
        [10, 0, 0, 0, 0] =
      assess_market_balance [200, 0, 0, 0, 0] [10, 0, 0, 0, 0] [101, 0, 0, 0, 0]
        [10, 0, 0, 0, 0] ∧
    assess_market_balance_float [200, 0, 0, 0, 0] [300, 0, 0, 0, 0] [100, 0, 0, 0, 0]
        [10, 0, 0, 0, 0] =
      assess_market_balance [200, 0, 0, 0, 0] [300, 0, 0, 0, 0] [100, 0, 0, 0, 0]
        [10, 0, 0, 0, 0] ∧
    assess_market_balance_float [200, 0, 0, 0, 0] [300, 0, 0, 0, 0] [101, 0, 0, 0, 0]
        [10, 0, 0, 0, 0] =
      assess_market_balance [200, 0, 0, 0, 0] [300, 0, 0, 0, 0] [101, 0, 0, 0, 0]
        [10, 0, 0, 0, 0] := by
  refine ⟨?_, ?_, ?_, ?_⟩ <;> rw [assess_market_balance_eq_int] <;> decide
